import Mathlib

/-!
Shallow embedding of `src/interval_timer.c` (an X11/ALSA fullscreen interval
training timer) together with theorems settling the specification claims.

The embedding follows the source:
* `parse_line` models one `sscanf(line, "%s %d", label, &duration)` call,
* `load_intervals` models the `load_intervals` file loop,
* `countdown_loop` / `session_loop` model the inner/outer loops of `main`,
* `check_x11_keypress` models the X11 event drain,
* `main_model` models the control flow of `main` (exit codes, resources),
* `overall_progress` / `current_progress` model the fractions computed in
  `draw_timer` (C `float` arithmetic modelled over `ℚ`).
-/

namespace IntervalTimer

/-- `#define MAX_INTERVALS 100` in interval_timer.c. -/
def MAX_INTERVALS : Nat := 100

/-- `#define MAX_LABEL_LENGTH 50` in interval_timer.c. -/
def MAX_LABEL_LENGTH : Nat := 50

/-- The `Interval` struct: `char label[MAX_LABEL_LENGTH]; int duration;`.
The stored label is a NUL-terminated C string, modelled as a Lean `String`;
the duration is a C `int`, modelled as `Int` (no claim involves overflow). -/
structure Interval where
  label : String
  duration : Int
deriving DecidableEq, Repr

instance : Inhabited Interval := ⟨⟨"", 0⟩⟩

/-- C `isspace` in the default locale: space, \t, \n, \v, \f, \r.
Used by `sscanf` for `%s` token boundaries and `%d` whitespace skipping. -/
def c_isspace (c : Char) : Bool :=
  c = ' ' || c = '\t' || c = '\n' || c = '\x0b' || c = '\x0c' || c = '\r'

/-- Skip leading whitespace, as `sscanf` does before `%s` and `%d`. -/
def dropSpaces : List Char → List Char
  | [] => []
  | c :: cs => if c_isspace c then dropSpaces cs else c :: cs

/-- Split off the maximal leading run of non-whitespace characters:
the token a `%s` conversion consumes, and the rest of the input. -/
def span_nonspace : List Char → List Char × List Char
  | [] => ([], [])
  | c :: cs =>
    if c_isspace c then ([], c :: cs)
    else
      let r := span_nonspace cs
      (c :: r.1, r.2)

/-- Decimal digit accumulation of a `%d` conversion: consume leading digits,
return the value and the unconsumed rest. -/
def digitsVal : Nat → List Char → Nat × List Char
  | acc, [] => (acc, [])
  | acc, c :: cs =>
    if c.isDigit then digitsVal (acc * 10 + (c.toNat - 48)) cs
    else (acc, c :: cs)

/-- The `%d` conversion after whitespace has been skipped: an optional sign
followed by at least one decimal digit; `none` is a matching failure
(`sscanf` then returns fewer than 2 items and the line is dropped). -/
def parse_int : List Char → Option Int
  | [] => none
  | '-' :: rest =>
    match rest with
    | [] => none
    | c :: _ => if c.isDigit then some (-(Int.ofNat (digitsVal 0 rest).1)) else none
  | '+' :: rest =>
    match rest with
    | [] => none
    | c :: _ => if c.isDigit then some (Int.ofNat (digitsVal 0 rest).1) else none
  | c :: cs => if c.isDigit then some (Int.ofNat (digitsVal 0 (c :: cs)).1) else none

/-- The token that the `%s` conversion of
`sscanf(line, "%s %d", label, &duration)` extracts from a line (all of it:
`%s` has no field width, so `sscanf` writes every one of these characters,
plus a terminating NUL, into the 50-byte stack buffer `label`). -/
def sscanf_token (line : String) : List Char :=
  (span_nonspace (dropSpaces line.toList)).1

/-- Model of `sscanf(line, "%s %d", label, &duration) == 2`: extract the
label token and the integer duration, or `none` when fewer than two items
convert (empty/whitespace-only line, or missing/non-numeric second field). -/
def parse_line (line : String) : Option (String × Int) :=
  let cs := dropSpaces line.toList
  let tok := span_nonspace cs
  match tok.1 with
  | [] => none
  | _ =>
    match parse_int (dropSpaces tok.2) with
    | some d => some (String.mk tok.1, d)
    | none => none

/-- `strncpy(dst, label, MAX_LABEL_LENGTH - 1)` followed by
`dst[MAX_LABEL_LENGTH - 1] = '\0'`: the stored label keeps at most the
first 49 characters of the token. -/
def strncpy_label (s : String) : String :=
  String.mk (s.toList.take (MAX_LABEL_LENGTH - 1))

/-- The loader state: `interval_set.intervals` (first `count` slots) and the
global `total_training_time` accumulated during the load. -/
structure LoadState where
  intervals : List Interval
  total : Int
deriving DecidableEq, Repr

/-- One iteration of the `load_intervals` read loop on one line: lines are
read only while `interval_set.count < MAX_INTERVALS`, and a line is stored
exactly when `sscanf(line, "%s %d", ...) == 2`, appending the truncated
label and the parsed duration and adding the duration to
`total_training_time`. -/
def load_step (st : LoadState) (line : String) : LoadState :=
  if st.intervals.length < MAX_INTERVALS then
    match parse_line line with
    | some p => ⟨st.intervals ++ [⟨strncpy_label p.1, p.2⟩], st.total + p.2⟩
    | none => st
  else st

/-- `load_intervals` on an opened file, the file given as its list of lines:
`interval_set.count = 0; total_training_time = 0;` then the `fgets` loop. -/
def load_intervals (lines : List String) : LoadState :=
  List.foldl load_step ⟨[], 0⟩ lines

/-- Sum of the stored durations (the spec's `totalDuration` for a list). -/
def sum_durations (ivs : List Interval) : Int :=
  (ivs.map (fun iv => iv.duration)).sum

/-- Sum of `duration.toNat`: the number of ticks the countdown loop spends
on each interval (an interval with non-positive duration gets no ticks,
since `while (time_remaining > 0)` is false at entry). -/
def sum_ticks (ivs : List Interval) : Nat :=
  (ivs.map (fun iv => iv.duration.toNat)).sum

/-- `if (key == 'q' || key == 'Q' || key == 27)` in the main loop
(`'q' = 113`, `'Q' = 81`, escape = 27). -/
def is_quit_key (k : Int) : Bool :=
  k = 113 || k = 81 || k = 27

/-- `else if (key == 's' || key == 'S')` in the main loop
(`'s' = 115`, `'S' = 83`). -/
def is_skip_key (k : Int) : Bool :=
  k = 115 || k = 83

/-- Observable actions of the main loop:
`render idx remaining elapsed` is a `draw_timer` call during interval
`idx` with the globals `time_remaining = remaining` and
`elapsed_training_time = elapsed` at call time; `alert idx` is the
`flash_screen(); reset_audio(); play_beep(); draw_completion_message(...)`
block run when interval `idx`'s inner loop ends with `running` still set. -/
inductive Ev where
  | render (idx : Nat) (remaining : Nat) (elapsed : Nat)
  | alert (idx : Nat)
deriving DecidableEq, Repr

/-- How the inner countdown loop ended: the countdown reached 0, the skip
key broke out, or the quit key broke out after clearing `running`. -/
inductive ExitKind where
  | expired
  | skipped
  | quitted
deriving DecidableEq, Repr

/-- Result of the inner (per-second) loop: its `draw_timer` calls, the
final `elapsed_training_time`, the next tick number and the exit kind. -/
structure LoopOut where
  events : List Ev
  elapsed : Nat
  tick : Nat
  ek : ExitKind
deriving Repr

/-- The inner loop of `main` on interval `idx`:
`while (time_remaining > 0 && running) { draw_timer(...); sleep(1);
time_remaining--; elapsed_training_time++; key = check_x11_keypress(); ... }`.
`n` is `time_remaining` (the loop runs only while positive, so the `Nat`
image of the C `int` is faithful), `e` is `elapsed_training_time`, `t`
numbers the ticks and `keys t` is what `check_x11_keypress()` returns on
tick `t`. -/
def countdown_loop (idx : Nat) (n e t : Nat) (keys : Nat → Int) : LoopOut :=
  match n with
  | 0 => ⟨[], e, t, .expired⟩
  | m + 1 =>
    let ev := Ev.render idx (m + 1) e
    if is_quit_key (keys t) then ⟨[ev], e + 1, t + 1, .quitted⟩
    else if is_skip_key (keys t) then ⟨[ev], e + 1, t + 1, .skipped⟩
    else
      let r := countdown_loop idx m (e + 1) (t + 1) keys
      ⟨ev :: r.events, r.elapsed, r.tick, r.ek⟩

/-- Result of the outer interval loop: all events, the final
`elapsed_training_time`, the final `current_interval` and the `running`
flag at loop exit. -/
structure SessionOut where
  events : List Ev
  elapsed : Nat
  finalIndex : Nat
  running : Bool
deriving Repr

/-- The outer loop of `main`:
`while (running && current_interval < interval_set.count)` — run the
inner countdown on the current interval, then, `if (running)` (i.e. the
inner loop ended by expiry or skip, not quit), fire the alert block and
`current_interval++`. `idx` is `current_interval` and `ivs` the remaining
intervals `intervals[idx..count)`. -/
def session_loop (idx : Nat) (ivs : List Interval) (e t : Nat)
    (keys : Nat → Int) : SessionOut :=
  match ivs with
  | [] => ⟨[], e, idx, true⟩
  | iv :: rest =>
    let r := countdown_loop idx iv.duration.toNat e t keys
    match r.ek with
    | .quitted => ⟨r.events, r.elapsed, idx, false⟩
    | _ =>
      let s := session_loop (idx + 1) rest r.elapsed r.tick keys
      ⟨r.events ++ Ev.alert idx :: s.events, s.elapsed, s.finalIndex, s.running⟩

/-- A whole session: the main timer loop started with
`current_interval = 0` and `elapsed_training_time = 0`. -/
def run_session (ivs : List Interval) (keys : Nat → Int) : SessionOut :=
  session_loop 0 ivs 0 0 keys

/-- The `(idx, remaining, elapsed)` triple of a render event. -/
def render_info : Ev → Option (Nat × Nat × Nat)
  | .render i r e => some (i, r, e)
  | .alert _ => none

/-- The `draw_timer` calls among a list of events, as
`(idx, remaining, elapsed)` triples in order. -/
def renders (evs : List Ev) : List (Nat × Nat × Nat) :=
  evs.filterMap render_info

/-- `float overall_progress = (float)elapsed_training_time /
total_training_time;` from `draw_timer`, modelled over `ℚ`. -/
def overall_progress (elapsed : Nat) (total : Int) : ℚ :=
  (elapsed : ℚ) / (total : ℚ)

/-- `float current_progress = 1.0 - ((float)time_remaining /
current_interval_ptr->duration);` from `draw_timer`, modelled over `ℚ`. -/
def current_progress (time_remaining : Nat) (duration : Int) : ℚ :=
  1 - (time_remaining : ℚ) / (duration : ℚ)

/-- An X11 event as seen by `check_x11_keypress`:
a `KeyPress` carries the bytes `XLookupString` produced (as character
codes) and whether the keysym is `XK_Escape`; a `ClientMessage` carries
whether its `message_type` is the `WM_DELETE_WINDOW` atom. -/
inductive XEv where
  | keyPress (chars : List Int) (isEscape : Bool)
  | clientMessage (isWmDelete : Bool)
  | configureNotify
  | expose
deriving DecidableEq, Repr

/-- `check_x11_keypress`: `while (XPending(display))` take the next event;
on a `KeyPress` return `key[0]` if `XLookupString` produced characters,
or 27 if the keysym is escape; on a `ClientMessage` whose type is
`WM_DELETE_WINDOW` return `'q'`; otherwise keep scanning; return 0 when
the queue is exhausted. The queue is the list of pending events in order. -/
def check_x11_keypress : List XEv → Int
  | [] => 0
  | .keyPress chars esc :: rest =>
    (match chars with
     | c :: _ => c
     | [] => if esc then 27 else check_x11_keypress rest)
  | .clientMessage wmdel :: rest =>
    if wmdel then 113 else check_x11_keypress rest
  | .configureNotify :: rest => check_x11_keypress rest
  | .expose :: rest => check_x11_keypress rest

/-- Whether the interval file could be opened, and its lines if so. -/
inductive FileSrc where
  | unreadable
  | readable (lines : List String)

/-- The environment `main` runs in: `argc`, the interval file, whether the
X11 display/window setup succeeds, and the key returned by
`check_x11_keypress()` on each tick. -/
structure Env where
  argCount : Nat
  file : FileSrc
  displayOk : Bool
  keys : Nat → Int

/-- Observable outcome of `main`: the exit code, which messages were
printed, and whether the X11 window / audio setup was ever attempted. -/
structure MainOut where
  exitCode : Int
  usagePrinted : Bool
  completionPrinted : Bool
  windowAcquired : Bool
  audioAttempted : Bool
  events : List Ev

/-- `load_intervals(argv[1])` as seen from `main`: on an unreadable file
the function prints an error and returns with the zero-initialised
globals (`interval_set.count = 0`, `total_training_time = 0`) untouched. -/
def load_result : FileSrc → LoadState
  | .unreadable => ⟨[], 0⟩
  | .readable ls => load_intervals ls

/-- The control flow of `main`: usage check (`argc != 2` → print usage,
return 1), load (`count == 0` → return 1, before `setup_x11_window` and
`setup_audio`), display check (`!display` → return 1), then the timer
loop followed by cleanup, the completion message and `return 0`. -/
def main_model (env : Env) : MainOut :=
  if env.argCount ≠ 2 then ⟨1, true, false, false, false, []⟩
  else
    let st := load_result env.file
    if st.intervals.length = 0 then ⟨1, false, false, false, false, []⟩
    else if env.displayOk = false then ⟨1, false, false, false, false, []⟩
    else
      let s := run_session st.intervals env.keys
      ⟨0, false, true, true, true, s.events⟩

/-- Follows the spec's words (§4.5): the meaningful key of one queued
event — quit keys `'q'`/`'Q'`/escape, skip keys `'s'`/`'S'`, a
window-close request mapped to the quit key — or `none` for anything
else. Used only to compare the specified `pollKey` contract with
`check_x11_keypress`. -/
def spec_meaningful_key : XEv → Option Int
  | .keyPress (c :: _) _ =>
    if c = 113 || c = 81 || c = 27 || c = 115 || c = 83 then some c else none
  | .keyPress [] esc => if esc then some 27 else none
  | .clientMessage wmdel => if wmdel then some 113 else none
  | .configureNotify => none
  | .expose => none

/-- Follows the spec's words (§4.5): `pollKey` drains all currently queued
input events and returns the most recently observed meaningful key, or 0
(none) if nothing actionable is queued. -/
def spec_pollKey (q : List XEv) : Int :=
  (q.reverse.findSome? spec_meaningful_key).getD 0

/-- What one event makes `check_x11_keypress` return (derived from the
source branches): the first character a `KeyPress` produced (whatever key
it is), 27 for a characterless escape press, `'q'` for a
`WM_DELETE_WINDOW` client message, nothing for any other event. -/
def event_report : XEv → Option Int
  | .keyPress (c :: _) _ => some c
  | .keyPress [] esc => if esc then some 27 else none
  | .clientMessage wmdel => if wmdel then some 113 else none
  | .configureNotify => none
  | .expose => none

/-! ## Helper lemmas about the loader -/

theorem load_step_none (st : LoadState) (l : String) (h : parse_line l = none) :
    load_step st l = st := by
  simp [load_step, h]

theorem load_step_some (st : LoadState) (l : String) (p : String × Int)
    (hp : parse_line l = some p) (hcap : st.intervals.length < MAX_INTERVALS) :
    load_step st l = ⟨st.intervals ++ [⟨strncpy_label p.1, p.2⟩], st.total + p.2⟩ := by
  simp [load_step, hp, hcap]

theorem load_step_total (st : LoadState) (l : String)
    (h : st.total = sum_durations st.intervals) :
    (load_step st l).total = sum_durations (load_step st l).intervals := by
  unfold load_step
  split
  · cases hp : parse_line l with
    | none => simpa using h
    | some p => simp [sum_durations, h]
  · exact h

theorem load_foldl_total : ∀ (ls : List String) (st : LoadState),
    st.total = sum_durations st.intervals →
    (List.foldl load_step st ls).total = sum_durations (List.foldl load_step st ls).intervals
  | [], _, h => h
  | l :: ls, st, h => load_foldl_total ls (load_step st l) (load_step_total st l h)

theorem load_intervals_total (ls : List String) :
    (load_intervals ls).total = sum_durations (load_intervals ls).intervals :=
  load_foldl_total ls ⟨[], 0⟩ rfl

theorem load_foldl_intervals (ls : List String) : ∀ (st : LoadState),
    st.intervals.length ≤ MAX_INTERVALS →
    (List.foldl load_step st ls).intervals =
      st.intervals ++
        (((ls.filterMap parse_line).take (MAX_INTERVALS - st.intervals.length)).map
          (fun p => ⟨strncpy_label p.1, p.2⟩)) := by
  induction ls with
  | nil => intro st _; simp
  | cons l ls ih =>
    intro st h
    rw [List.foldl_cons]
    cases hp : parse_line l with
    | none =>
      rw [load_step_none st l hp, ih st h, List.filterMap_cons_none hp]
    | some p =>
      by_cases hc : st.intervals.length < MAX_INTERVALS
      · rw [load_step_some st l p hp hc]
        rw [ih ⟨st.intervals ++ [Interval.mk (strncpy_label p.1) p.2], st.total + p.2⟩
          (by simp; omega)]
        rw [List.filterMap_cons_some hp]
        have hsplit : MAX_INTERVALS - st.intervals.length =
            (MAX_INTERVALS - (st.intervals.length + 1)) + 1 := by omega
        rw [hsplit, List.take_succ_cons]
        simp
      · have hlen : st.intervals.length = MAX_INTERVALS := by omega
        have hst : load_step st l = st := by simp [load_step, hc]
        rw [hst, ih st h, List.filterMap_cons_some hp, hlen]
        simp

theorem load_intervals_eq (ls : List String) :
    (load_intervals ls).intervals =
      ((ls.filterMap parse_line).take MAX_INTERVALS).map
        (fun p => ⟨strncpy_label p.1, p.2⟩) := by
  have h := load_foldl_intervals ls ⟨[], 0⟩ (by simp)
  simpa [load_intervals] using h

theorem load_intervals_le_cap (ls : List String) :
    (load_intervals ls).intervals.length ≤ MAX_INTERVALS := by
  rw [load_intervals_eq]
  simp [List.length_take]

/-! ## Claims about the loader -/

/-- Claim C2 counterexample: the line `"Rest 0"`, whose duration field
parses as the integer zero, is stored by the load — it appears in the
sequence and raises the entry count to 1, contrary to the claim that such
a line is dropped and not counted. -/
theorem C2_counterexample :
    (load_intervals ["Rest 0"]).intervals = [⟨"Rest", 0⟩] ∧
    (load_intervals ["Rest 0"]).intervals.length = 1 := by
  exact ⟨rfl, rfl⟩

/-- Claim C2 (amended): a line whose duration field parses as the integer
zero is NOT dropped: it is stored in the sequence (entry count grows by
one), it contributes 0 to `totalDuration` (leaving it unchanged), and the
load of the remaining lines continues from the grown state. Only lines on
which `sscanf` converts fewer than two items are dropped. -/
theorem C2_amended (pre post : List String) (l lbl : String)
    (hp : parse_line l = some (lbl, 0))
    (hcap : (load_intervals pre).intervals.length < MAX_INTERVALS) :
    load_intervals (pre ++ l :: post) =
      List.foldl load_step
        ⟨(load_intervals pre).intervals ++ [⟨strncpy_label lbl, 0⟩],
          (load_intervals pre).total⟩ post ∧
    (load_step (load_intervals pre) l).intervals.length =
      (load_intervals pre).intervals.length + 1 ∧
    (load_step (load_intervals pre) l).total = (load_intervals pre).total := by
  have hstep := load_step_some (load_intervals pre) l (lbl, 0) hp hcap
  refine ⟨?_, ?_, ?_⟩
  · show List.foldl load_step ⟨[], 0⟩ (pre ++ l :: post) = _
    rw [List.foldl_append, List.foldl_cons]
    show List.foldl load_step (load_step (load_intervals pre) l) post = _
    rw [hstep]
    norm_num
  · rw [hstep]; simp
  · rw [hstep]; simp

/-- Claim C2 witness: the amended statement at the concrete file
`["Rest 0", "B 5"]`. -/
theorem C2_witness :
    load_intervals ([] ++ "Rest 0" :: ["B 5"]) =
      List.foldl load_step
        ⟨(load_intervals []).intervals ++ [⟨strncpy_label "Rest", 0⟩],
          (load_intervals []).total⟩ ["B 5"] ∧
    (load_step (load_intervals []) "Rest 0").intervals.length =
      (load_intervals []).intervals.length + 1 ∧
    (load_step (load_intervals []) "Rest 0").total = (load_intervals []).total :=
  C2_amended [] ["B 5"] "Rest 0" "Rest" (by decide) (by decide)

/-- Claim C3 counterexample: the single-line file `"X 0"` is accepted at
load and yields `totalDuration = 0` with a non-empty sequence, refuting
the invariant `totalDuration == 0` iff the sequence is empty. -/
theorem C3_counterexample :
    (load_intervals ["X 0"]).total = 0 ∧ (load_intervals ["X 0"]).intervals ≠ [] := by
  exact ⟨rfl, by decide⟩

/-- Claim C3 (amended): only one direction of the invariant holds — an
empty loaded sequence always has `totalDuration = 0` (the converse fails,
since zero-duration entries are stored); and an empty sequence is indeed
fatal: with `argc = 2`, `main` exits with code 1 before any window or
audio resource is acquired. -/
theorem C3_amended :
    (∀ ls : List String, (load_intervals ls).intervals = [] →
      (load_intervals ls).total = 0) ∧
    (∀ env : Env, env.argCount = 2 → (load_result env.file).intervals = [] →
      (main_model env).exitCode = 1 ∧ (main_model env).windowAcquired = false ∧
        (main_model env).audioAttempted = false) := by
  constructor
  · intro ls h
    rw [load_intervals_total ls, h]
    rfl
  · intro env h1 h2
    simp [main_model, h1, h2]

/-- Claim C3 witness: the amended statement at the all-malformed file
`["zzz"]` and the corresponding environment. -/
theorem C3_witness :
    (load_intervals ["zzz"]).total = 0 ∧
    (main_model ⟨2, .readable ["zzz"], true, fun _ => 0⟩).exitCode = 1 :=
  ⟨C3_amended.1 ["zzz"] (by decide),
    (C3_amended.2 ⟨2, .readable ["zzz"], true, fun _ => 0⟩ rfl (by decide)).1⟩

/-- Claim C5: for an input line whose label token has 60 characters, the
`%s` conversion of `sscanf(line, "%s %d", label, &duration)` writes the
whole token plus a terminating NUL — 61 bytes — into the 50-byte stack
buffer `char label[MAX_LABEL_LENGTH]`, an out-of-bounds write (undefined
behavior) that happens before the `strncpy` truncation the claim
describes; the intended truncation itself would keep at most 49
characters. -/
theorem C5_bug :
    (sscanf_token
        "AAAAAAAAAAAAAAAAAAAAAAAAAAAAAAAAAAAAAAAAAAAAAAAAAAAAAAAAAAAA 10").length + 1 >
      MAX_LABEL_LENGTH ∧
    MAX_LABEL_LENGTH = 50 ∧
    (strncpy_label (String.mk (sscanf_token
        "AAAAAAAAAAAAAAAAAAAAAAAAAAAAAAAAAAAAAAAAAAAAAAAAAAAAAAAAAAAA 10"))).length =
      MAX_LABEL_LENGTH - 1 := by
  decide

/-- Claim C6: for a file whose number `N` of valid lines (lines on which
`sscanf` converts both the label token and an integer duration) is at
most 100, the load stores exactly those `N` entries in file order — each
with its truncated label and parsed duration — and `totalDuration` is the
sum of their durations; the sequence length never exceeds the 100-entry
cap, and a malformed line leaves the loader state completely unchanged
(no capacity consumed, no abort). -/
theorem C6_theorem (ls : List String)
    (hN : (ls.filterMap parse_line).length ≤ MAX_INTERVALS) :
    (load_intervals ls).intervals =
      (ls.filterMap parse_line).map (fun p => ⟨strncpy_label p.1, p.2⟩) ∧
    (load_intervals ls).intervals.length = (ls.filterMap parse_line).length ∧
    (load_intervals ls).total = ((ls.filterMap parse_line).map (fun p => p.2)).sum ∧
    (∀ ls' : List String, (load_intervals ls').intervals.length ≤ MAX_INTERVALS) ∧
    (∀ (st : LoadState) (l : String), parse_line l = none → load_step st l = st) := by
  have h1 : (load_intervals ls).intervals =
      (ls.filterMap parse_line).map (fun p => ⟨strncpy_label p.1, p.2⟩) := by
    rw [load_intervals_eq, List.take_of_length_le hN]
  refine ⟨h1, ?_, ?_, load_intervals_le_cap, load_step_none⟩
  · rw [h1, List.length_map]
  · rw [load_intervals_total, h1]
    simp only [sum_durations, List.map_map]
    rfl

/-- Claim C6 witness: the theorem at the concrete four-line file with one
malformed line; the three valid lines are stored in file order and the
total is 390. -/
theorem C6_witness :
    (load_intervals ["Warmup 300", "Sprint 30", "bad", "Rest 60"]).intervals =
      ((["Warmup 300", "Sprint 30", "bad", "Rest 60"].filterMap parse_line).map
        (fun p => ⟨strncpy_label p.1, p.2⟩)) ∧
    (load_intervals ["Warmup 300", "Sprint 30", "bad", "Rest 60"]).total =
      (((["Warmup 300", "Sprint 30", "bad", "Rest 60"].filterMap parse_line)).map
        (fun p => p.2)).sum :=
  ⟨( C6_theorem ["Warmup 300", "Sprint 30", "bad", "Rest 60"] (by decide)).1,
    ( C6_theorem ["Warmup 300", "Sprint 30", "bad", "Rest 60"] (by decide)).2.2.1⟩

/-! ## Claims about skipping, input polling, exit codes and durations -/

/-- Claim C1 counterexample: in the session over `[("A", 3), ("B", 2)]`
with the skip key pressed on the first tick, the skipped interval 0 is
left after a single tick and the index advances by one — but the alert
block (`flash_screen`/`play_beep`/`draw_completion_message`) fires for
interval 0 all the same, because the `if (running)` branch of the outer
loop runs after a skip break just as after natural expiry. This refutes
the claim that a skip does not fire the alert for the skipped interval. -/
theorem C1_counterexample :
    (run_session [⟨"A", 3⟩, ⟨"B", 2⟩] (fun t => if t = 0 then 115 else 0)).events =
      [Ev.render 0 3 0, Ev.alert 0, Ev.render 1 2 1, Ev.render 1 1 2, Ev.alert 1] ∧
    Ev.alert 0 ∈
      (run_session [⟨"A", 3⟩, ⟨"B", 2⟩] (fun t => if t = 0 then 115 else 0)).events := by
  exact ⟨rfl, by decide⟩

/-- Claim C1 (amended): a skip key press during an interval ends that
interval early (a single tick of a duration ≥ 2 interval is consumed and
the rest forfeited, with only that tick added to the elapsed total) and
advances `current_interval` by exactly one — and the alert sequence DOES
fire for the skipped interval, exactly as on natural expiry; only a quit
key (or the cleared `running` flag) suppresses the alert. -/
theorem C1_amended (idx : Nat) (iv : Interval) (rest : List Interval) (e t m : Nat)
    (keys : Nat → Int)
    (hs : is_skip_key (keys t) = true) (hq : is_quit_key (keys t) = false)
    (hd : iv.duration.toNat = m + 2) :
    session_loop idx (iv :: rest) e t keys =
      ⟨Ev.render idx (m + 2) e :: Ev.alert idx ::
          (session_loop (idx + 1) rest (e + 1) (t + 1) keys).events,
        (session_loop (idx + 1) rest (e + 1) (t + 1) keys).elapsed,
        (session_loop (idx + 1) rest (e + 1) (t + 1) keys).finalIndex,
        (session_loop (idx + 1) rest (e + 1) (t + 1) keys).running⟩ := by
  show (match (countdown_loop idx iv.duration.toNat e t keys).ek with
    | ExitKind.quitted => _
    | _ => _ : SessionOut) = _
  rw [hd]
  simp only [countdown_loop, hq, hs, Bool.false_eq_true, if_false, if_true]
  rfl

/-- Claim C1 witness: the amended statement at the concrete session
`[("A", 3), ("B", 2)]` with skip pressed on tick 0. -/
theorem C1_witness :
    session_loop 0 [⟨"A", 3⟩, ⟨"B", 2⟩] 0 0 (fun t => if t = 0 then 115 else 0) =
      ⟨Ev.render 0 3 0 :: Ev.alert 0 ::
          (session_loop 1 [⟨"B", 2⟩] 1 1 (fun t => if t = 0 then 115 else 0)).events,
        (session_loop 1 [⟨"B", 2⟩] 1 1 (fun t => if t = 0 then 115 else 0)).elapsed,
        (session_loop 1 [⟨"B", 2⟩] 1 1 (fun t => if t = 0 then 115 else 0)).finalIndex,
        (session_loop 1 [⟨"B", 2⟩] 1 1 (fun t => if t = 0 then 115 else 0)).running⟩ :=
  C1_amended 0 ⟨"A", 3⟩ [⟨"B", 2⟩] 0 0 1 (fun t => if t = 0 then 115 else 0)
    (by decide) (by decide) (by decide)

/-- Claim C4 counterexample: with the queue `['s' pressed, 'q' pressed]`,
`check_x11_keypress` returns `'s'` (115), the FIRST queued key, not the
most recently observed meaningful key `'q'` (113) that the spec requires;
and with the queue `['x' pressed, 'q' pressed]` it returns `'x'` (120),
a key the spec says is ignored, instead of `'q'`. -/
theorem C4_counterexample :
    check_x11_keypress [.keyPress [115] false, .keyPress [113] false] = 115 ∧
    spec_pollKey [.keyPress [115] false, .keyPress [113] false] = 113 ∧
    check_x11_keypress [.keyPress [120] false, .keyPress [113] false] = 120 ∧
    spec_pollKey [.keyPress [120] false, .keyPress [113] false] = 113 := by
  decide

/-- Claim C4 (amended): `check_x11_keypress` scans the queued events in
order and returns the report of the FIRST reportable event — the first
character of the first `KeyPress` that produced characters (whatever key
that is, meaningful or not), 27 for a characterless escape press, `'q'`
for a `WM_DELETE_WINDOW` client message — or 0 (none) when no queued
event is reportable; events after the returned one stay queued. -/
theorem C4_amended (q : List XEv) :
    check_x11_keypress q = (q.findSome? event_report).getD 0 := by
  induction q with
  | nil => rfl
  | cons ev rest ih =>
    cases ev with
    | keyPress chars esc =>
      cases chars with
      | nil =>
        cases esc <;>
          simp [check_x11_keypress, List.findSome?_cons, event_report, ih]
      | cons c cs =>
        simp [check_x11_keypress, List.findSome?_cons, event_report]
    | clientMessage wmdel =>
      cases wmdel <;>
        simp [check_x11_keypress, List.findSome?_cons, event_report, ih]
    | configureNotify =>
      simp [check_x11_keypress, List.findSome?_cons, event_report, ih]
    | expose =>
      simp [check_x11_keypress, List.findSome?_cons, event_report, ih]

/-- Claim C8: the exit-code contract of `main` — exit 1 with the usage
message on wrong argument count; exit 1 on an unreadable or empty
interval file, before any window or audio resource is acquired; exit 1
when the display/window cannot be initialized; exit 0 with the completion
message whenever the session runs (to completion or quit). -/
theorem C8_theorem (env : Env) :
    (env.argCount ≠ 2 →
      (main_model env).exitCode = 1 ∧ (main_model env).usagePrinted = true) ∧
    (env.argCount = 2 → (load_result env.file).intervals = [] →
      (main_model env).exitCode = 1 ∧ (main_model env).windowAcquired = false ∧
        (main_model env).audioAttempted = false) ∧
    (env.argCount = 2 → (load_result env.file).intervals ≠ [] → env.displayOk = false →
      (main_model env).exitCode = 1) ∧
    (env.argCount = 2 → (load_result env.file).intervals ≠ [] → env.displayOk = true →
      (main_model env).exitCode = 0 ∧ (main_model env).completionPrinted = true) := by
  refine ⟨?_, ?_, ?_, ?_⟩
  · intro h; simp [main_model, h]
  · intro h1 h2; simp [main_model, h1, h2]
  · intro h1 h2 h3
    simp [main_model, h1, h3, List.length_eq_zero, h2]
  · intro h1 h2 h3
    simp [main_model, h1, h3, List.length_eq_zero, h2]

/-- Claim C8 witness: the four exit paths at concrete environments —
wrong argument count, unreadable file, display failure, and a normal
session over the file `["A 2"]`. -/
theorem C8_witness :
    (main_model ⟨1, .unreadable, true, fun _ => 0⟩).exitCode = 1 ∧
    (main_model ⟨2, .unreadable, true, fun _ => 0⟩).exitCode = 1 ∧
    (main_model ⟨2, .readable ["A 2"], false, fun _ => 0⟩).exitCode = 1 ∧
    (main_model ⟨2, .readable ["A 2"], true, fun _ => 0⟩).exitCode = 0 :=
  ⟨((C8_theorem ⟨1, .unreadable, true, fun _ => 0⟩).1 (by decide)).1,
    ((C8_theorem ⟨2, .unreadable, true, fun _ => 0⟩).2.1 rfl (by decide)).1,
    (C8_theorem ⟨2, .readable ["A 2"], false, fun _ => 0⟩).2.2.1 rfl (by decide) rfl,
    ((C8_theorem ⟨2, .readable ["A 2"], true, fun _ => 0⟩).2.2.2 rfl (by decide) rfl).1⟩

/-- Claim C9: the loader accepts any integer duration, negative ones
included (witnessed by the line `"Cooldown -45"` and by the general
storing step, which adds the parsed duration — so a negative duration
lowers `total_training_time`); an interval with negative duration gets no
countdown iterations at all (`while (time_remaining > 0)` fails at entry:
no render, no tick, no elapsed time), and on reaching it the alert
sequence fires immediately as its first event, after which the session
continues with the next interval. -/
theorem C9_theorem (st : LoadState) (l lbl : String) (d : Int) (rest : List Interval)
    (idx e t : Nat) (keys : Nat → Int)
    (hd : d < 0) (hl : parse_line l = some (lbl, d))
    (hcap : st.intervals.length < MAX_INTERVALS) :
    parse_line "Cooldown -45" = some ("Cooldown", -45) ∧
    load_step st l = ⟨st.intervals ++ [⟨strncpy_label lbl, d⟩], st.total + d⟩ ∧
    (load_step st l).total < st.total ∧
    countdown_loop idx (Interval.mk lbl d).duration.toNat e t keys = ⟨[], e, t, .expired⟩ ∧
    session_loop idx (⟨lbl, d⟩ :: rest) e t keys =
      ⟨Ev.alert idx :: (session_loop (idx + 1) rest e t keys).events,
        (session_loop (idx + 1) rest e t keys).elapsed,
        (session_loop (idx + 1) rest e t keys).finalIndex,
        (session_loop (idx + 1) rest e t keys).running⟩ := by
  have htn : (Interval.mk lbl d).duration.toNat = 0 :=
    Int.toNat_of_nonpos (le_of_lt hd)
  have hstep := load_step_some st l (lbl, d) hl hcap
  refine ⟨by decide, hstep, ?_, ?_, ?_⟩
  · rw [hstep]
    simpa using hd
  · rw [htn]
    rfl
  · show (match (countdown_loop idx (Interval.mk lbl d).duration.toNat e t keys).ek with
      | ExitKind.quitted => _
      | _ => _ : SessionOut) = _
    rw [htn]
    rfl

/-- Claim C9 witness: the theorem at the concrete line `"Cooldown -45"`,
an empty loader state and the session `[("Cooldown", -45), ("B", 2)]`. -/
theorem C9_witness :
    parse_line "Cooldown -45" = some ("Cooldown", -45) ∧
    load_step ⟨[], 0⟩ "Cooldown -45" =
      ⟨[] ++ [⟨strncpy_label "Cooldown", -45⟩], 0 + (-45)⟩ ∧
    (load_step ⟨[], 0⟩ "Cooldown -45").total < (0 : Int) ∧
    countdown_loop 0 (Interval.mk "Cooldown" (-45)).duration.toNat 0 0 (fun _ => 0) =
      ⟨[], 0, 0, .expired⟩ ∧
    session_loop 0 [⟨"Cooldown", -45⟩, ⟨"B", 2⟩] 0 0 (fun _ => 0) =
      ⟨Ev.alert 0 :: (session_loop 1 [⟨"B", 2⟩] 0 0 (fun _ => 0)).events,
        (session_loop 1 [⟨"B", 2⟩] 0 0 (fun _ => 0)).elapsed,
        (session_loop 1 [⟨"B", 2⟩] 0 0 (fun _ => 0)).finalIndex,
        (session_loop 1 [⟨"B", 2⟩] 0 0 (fun _ => 0)).running⟩ :=
  C9_theorem ⟨[], 0⟩ "Cooldown -45" "Cooldown" (-45) [⟨"B", 2⟩] 0 0 0 (fun _ => 0)
    (by decide) (by decide) (by decide)

/-! ## Helper lemmas about the session loops -/

theorem renders_nil : renders [] = [] := rfl

theorem renders_append (l₁ l₂ : List Ev) :
    renders (l₁ ++ l₂) = renders l₁ ++ renders l₂ :=
  List.filterMap_append l₁ l₂ render_info

theorem renders_alert_cons (i : Nat) (l : List Ev) :
    renders (Ev.alert i :: l) = renders l := by
  simp [renders, List.filterMap_cons, render_info]

theorem renders_render_cons (i r e : Nat) (l : List Ev) :
    renders (Ev.render i r e :: l) = (i, r, e) :: renders l := by
  simp [renders, List.filterMap_cons, render_info]

theorem sum_ticks_nil : sum_ticks [] = 0 := rfl

theorem sum_ticks_cons (iv : Interval) (rest : List Interval) :
    sum_ticks (iv :: rest) = iv.duration.toNat + sum_ticks rest := by
  simp [sum_ticks]

theorem sum_durations_nil : sum_durations [] = 0 := rfl

theorem sum_durations_cons (iv : Interval) (rest : List Interval) :
    sum_durations (iv :: rest) = iv.duration + sum_durations rest := by
  simp [sum_durations]

theorem sum_ticks_eq_sum_durations (ivs : List Interval)
    (hd : ∀ iv ∈ ivs, 1 ≤ iv.duration) :
    (sum_ticks ivs : Int) = sum_durations ivs := by
  induction ivs with
  | nil => rfl
  | cons iv rest ih =>
    rw [sum_ticks_cons, sum_durations_cons]
    have h1 : 1 ≤ iv.duration := hd iv (by simp)
    have h2 := ih (fun x hx => hd x (by simp [hx]))
    push_cast
    rw [Int.toNat_of_nonneg (by omega)]
    omega

theorem length_le_sum_durations (ivs : List Interval)
    (hd : ∀ iv ∈ ivs, 1 ≤ iv.duration) : (ivs.length : Int) ≤ sum_durations ivs := by
  induction ivs with
  | nil => simp [sum_durations]
  | cons iv rest ih =>
    rw [sum_durations_cons]
    have h1 : 1 ≤ iv.duration := hd iv (by simp)
    have h2 := ih (fun x hx => hd x (by simp [hx]))
    simp only [List.length_cons]
    push_cast
    omega

theorem sum_durations_pos (ivs : List Interval) (hne : ivs ≠ [])
    (hd : ∀ iv ∈ ivs, 1 ≤ iv.duration) : 1 ≤ sum_durations ivs := by
  have h1 := length_le_sum_durations ivs hd
  have h2 : 1 ≤ ivs.length := List.length_pos.mpr hne
  have h3 : (1 : Int) ≤ (ivs.length : Int) := by exact_mod_cast h2
  omega

theorem countdown_loop_bound (idx : Nat) : ∀ (n e t : Nat) (keys : Nat → Int),
    (∀ p ∈ renders (countdown_loop idx n e t keys).events,
        p.1 = idx ∧ 1 ≤ p.2.1 ∧ p.2.2 + p.2.1 ≤ e + n) ∧
    (countdown_loop idx n e t keys).elapsed ≤ e + n := by
  intro n
  induction n with
  | zero =>
    intro e t keys
    refine ⟨?_, by simp [countdown_loop]⟩
    intro p hp
    simp [countdown_loop, renders_nil] at hp
  | succ m ih =>
    intro e t keys
    by_cases hq : is_quit_key (keys t) = true
    · simp only [countdown_loop, hq, if_true]
      refine ⟨?_, by omega⟩
      intro p hp
      rw [renders_render_cons, renders_nil] at hp
      simp only [List.mem_singleton] at hp
      subst hp
      refine ⟨rfl, ?_, ?_⟩
      · show 1 ≤ m + 1
        omega
      · show e + (m + 1) ≤ e + (m + 1)
        omega
    · rw [Bool.not_eq_true] at hq
      by_cases hs : is_skip_key (keys t) = true
      · simp only [countdown_loop, hq, hs, Bool.false_eq_true, if_false, if_true]
        refine ⟨?_, by omega⟩
        intro p hp
        rw [renders_render_cons, renders_nil] at hp
        simp only [List.mem_singleton] at hp
        subst hp
        refine ⟨rfl, ?_, ?_⟩
        · show 1 ≤ m + 1
          omega
        · show e + (m + 1) ≤ e + (m + 1)
          omega
      · rw [Bool.not_eq_true] at hs
        simp only [countdown_loop, hq, hs, Bool.false_eq_true, if_false]
        have hih := ih (e + 1) (t + 1) keys
        refine ⟨?_, by have := hih.2; omega⟩
        intro p hp
        rw [renders_render_cons] at hp
        rcases List.mem_cons.mp hp with h | h
        · subst h
          refine ⟨rfl, ?_, ?_⟩
          · show 1 ≤ m + 1
            omega
          · show e + (m + 1) ≤ e + (m + 1)
            omega
        · have h3 := hih.1 p h
          exact ⟨h3.1, h3.2.1, by have := h3.2.2; omega⟩

theorem session_loop_bound (ivs : List Interval) : ∀ (idx e t : Nat) (keys : Nat → Int),
    (∀ p ∈ renders (session_loop idx ivs e t keys).events,
        1 ≤ p.2.1 ∧ p.2.2 + p.2.1 ≤ e + sum_ticks ivs) ∧
    (session_loop idx ivs e t keys).elapsed ≤ e + sum_ticks ivs := by
  induction ivs with
  | nil =>
    intro idx e t keys
    refine ⟨?_, by simp [session_loop, sum_ticks_nil]⟩
    intro p hp
    simp [session_loop, renders_nil] at hp
  | cons iv rest ih =>
    intro idx e t keys
    have hb := countdown_loop_bound idx iv.duration.toNat e t keys
    have hsum := sum_ticks_cons iv rest
    simp only [session_loop]
    split
    · dsimp only
      refine ⟨?_, by have := hb.2; omega⟩
      intro p hp
      have h3 := hb.1 p hp
      exact ⟨h3.2.1, by have := h3.2.2; omega⟩
    · dsimp only
      have hih := ih (idx + 1) (countdown_loop idx iv.duration.toNat e t keys).elapsed
        (countdown_loop idx iv.duration.toNat e t keys).tick keys
      refine ⟨?_, by have h1 := hih.2; have h2 := hb.2; omega⟩
      intro p hp
      rw [renders_append, renders_alert_cons] at hp
      rcases List.mem_append.mp hp with h | h
      · have h3 := hb.1 p h
        exact ⟨h3.2.1, by have := h3.2.2; omega⟩
      · have h1 := hih.1 p h
        have h2 := hb.2
        exact ⟨h1.1, by have := h1.2; omega⟩

theorem countdown_loop_no_ctl (idx : Nat) : ∀ (n e t : Nat) (keys : Nat → Int),
    (∀ u, is_quit_key (keys u) = false ∧ is_skip_key (keys u) = false) →
    countdown_loop idx n e t keys =
      ⟨(List.range' e n).map (fun x => Ev.render idx (n + e - x) x), e + n, t + n,
        .expired⟩ := by
  intro n
  induction n with
  | zero =>
    intro e t keys _
    simp [countdown_loop]
  | succ m ih =>
    intro e t keys h
    simp only [countdown_loop, (h t).1, (h t).2, Bool.false_eq_true, if_false]
    rw [ih (e + 1) (t + 1) keys h]
    simp only [LoopOut.mk.injEq]
    refine ⟨?_, by omega, by omega, trivial⟩
    rw [List.range'_succ, List.map_cons]
    have h1 : m + 1 + e - e = m + 1 := by omega
    have h2 : m + (e + 1) = m + 1 + e := by omega
    rw [h1, ← h2]

theorem renders_block (idx : Nat) : ∀ (n e : Nat),
    renders ((List.range' e n).map (fun x => Ev.render idx (n + e - x) x)) =
      (List.range' e n).map (fun x => (idx, n + e - x, x)) := by
  intro n
  induction n with
  | zero => intro e; rfl
  | succ m ih =>
    intro e
    rw [List.range'_succ, List.map_cons, List.map_cons, renders_render_cons]
    have h2 : m + 1 + e = m + (e + 1) := by omega
    rw [h2, ih (e + 1)]

theorem chain'_range' (R : Nat → Nat → Prop) : ∀ (n s : Nat),
    (∀ x, s ≤ x → x + 1 < s + n → R x (x + 1)) → List.Chain' R (List.range' s n) := by
  intro n
  induction n with
  | zero => intro s _; simp
  | succ m ih =>
    intro s h
    rw [List.range'_succ, List.chain'_cons']
    constructor
    · intro y hy
      cases m with
      | zero => simp [List.range'] at hy
      | succ k =>
        rw [List.range'_succ] at hy
        simp only [List.head?_cons, Option.mem_def, Option.some.injEq] at hy
        subst hy
        exact h s le_rfl (by omega)
    · exact ih (s + 1) (fun x hx hlt => h x (by omega) (by omega))

theorem session_loop_no_ctl (ivs : List Interval) : ∀ (idx e t : Nat) (keys : Nat → Int),
    (∀ u, is_quit_key (keys u) = false ∧ is_skip_key (keys u) = false) →
    ((renders (session_loop idx ivs e t keys).events).map (fun p => p.2.2) =
        List.range' e (sum_ticks ivs)) ∧
    (∀ p ∈ renders (session_loop idx ivs e t keys).events,
        idx ≤ p.1 ∧ p.1 < idx + ivs.length) ∧
    List.Chain' (fun p q : Nat × Nat × Nat =>
        p.2.2 ≤ q.2.2 ∧ (p.1 = q.1 → p.2.1 = q.2.1 + 1))
      (renders (session_loop idx ivs e t keys).events) ∧
    (session_loop idx ivs e t keys).elapsed = e + sum_ticks ivs ∧
    (session_loop idx ivs e t keys).running = true ∧
    (session_loop idx ivs e t keys).finalIndex = idx + ivs.length := by
  induction ivs with
  | nil =>
    intro idx e t keys _
    refine ⟨?_, ?_, ?_, ?_, ?_, ?_⟩
    · simp [session_loop, renders_nil, sum_ticks_nil]
    · intro p hp
      simp [session_loop, renders_nil] at hp
    · simp [session_loop, renders_nil]
    · simp [session_loop, sum_ticks_nil]
    · rfl
    · simp [session_loop]
  | cons iv rest ih =>
    intro idx e t keys h
    have hc := countdown_loop_no_ctl idx iv.duration.toNat e t keys h
    have hih := ih (idx + 1) (e + iv.duration.toNat) (t + iv.duration.toNat) keys h
    have hsum := sum_ticks_cons iv rest
    have hblock := renders_block idx iv.duration.toNat e
    simp only [session_loop, hc]
    rw [renders_append, renders_alert_cons, hblock]
    refine ⟨?_, ?_, ?_, ?_, ?_, ?_⟩
    · rw [List.map_append, List.map_map, hih.1]
      have hmm : ((fun p : Nat × Nat × Nat => p.2.2) ∘
          fun x => (idx, iv.duration.toNat + e - x, x)) = (fun x : Nat => x) := rfl
      rw [hmm, List.map_id']
      have happ := List.range'_append e iv.duration.toNat (sum_ticks rest) 1
      simp only [one_mul] at happ
      rw [hsum, Nat.add_comm iv.duration.toNat (sum_ticks rest)]
      exact happ
    · intro p hp
      rcases List.mem_append.mp hp with hmem | hmem
      · rcases List.mem_map.mp hmem with ⟨x, _, hx⟩
        subst hx
        simp only [List.length_cons]
        exact ⟨le_rfl, by omega⟩
      · have h1 := hih.2.1 p hmem
        simp only [List.length_cons]
        exact ⟨by omega, by omega⟩
    · refine List.Chain'.append ?_ hih.2.2.1 ?_
      · rw [List.chain'_map]
        refine chain'_range' _ iv.duration.toNat e ?_
        intro x hx hlt
        refine ⟨?_, fun _ => ?_⟩
        · show x ≤ x + 1
          omega
        · show iv.duration.toNat + e - x = iv.duration.toNat + e - (x + 1) + 1
          omega
      · intro x hx y hy
        have hxm := List.mem_of_mem_getLast? hx
        have hym := List.mem_of_mem_head? hy
        rcases List.mem_map.mp hxm with ⟨x₀, hx₀, hxeq⟩
        subst hxeq
        have hx₀r := List.mem_range'_1.mp hx₀
        have hyel : y.2.2 ∈ List.range' (e + iv.duration.toNat) (sum_ticks rest) := by
          rw [← hih.1]
          exact List.mem_map_of_mem (fun p => p.2.2) hym
        have hyel' := List.mem_range'_1.mp hyel
        have hyidx := (hih.2.1 y hym).1
        refine ⟨?_, ?_⟩
        · show x₀ ≤ y.2.2
          omega
        · intro hidx
          exact absurd (show idx = y.1 from hidx) (by omega)
    · rw [hih.2.2.2.1]
      omega
    · exact hih.2.2.2.2.1
    · rw [hih.2.2.2.2.2]
      simp only [List.length_cons]
      omega

/-! ## Claim C7 -/

/-- Claim C7 counterexample: in the skip-free session over
`[("A", 2), ("B", 1)]` the consecutive `draw_timer` calls at ticks 1 and
2 are `(idx 0, remaining 1, elapsed 1)` and `(idx 1, remaining 1,
elapsed 2)`; the current-interval fraction `1 - remaining/duration` goes
from `1/2` (interval 0, duration 2) down to `0` (interval 1, duration 1)
between these consecutive ticks, so that derived progress fraction is
NOT monotonically non-decreasing across the whole sequence — it resets
at every interval boundary. -/
theorem C7_counterexample :
    renders (run_session [⟨"A", 2⟩, ⟨"B", 1⟩] (fun _ => 0)).events =
      [(0, 2, 0), (0, 1, 1), (1, 1, 2)] ∧
    current_progress 1 (2 : Int) = 1 / 2 ∧
    current_progress 1 (1 : Int) = 0 ∧
    ¬(current_progress 1 (2 : Int) ≤ current_progress 1 (1 : Int)) := by
  refine ⟨rfl, ?_, ?_, ?_⟩ <;> norm_num [current_progress]

/-- Claim C7 (amended): in a session without skip or quit keys, over
intervals with positive durations — (i) `elapsed_training_time`
increments by exactly one per tick: the elapsed values seen by the
successive `draw_timer` calls are `0, 1, 2, ...` across the whole
session, so (ii) the overall fraction `elapsedTotal/totalDuration` is
monotonically non-decreasing from tick to tick across the whole
sequence; (iii) the current-interval fraction `1 - remaining/duration`
is monotonically non-decreasing between consecutive ticks of the SAME
interval only (it resets at interval boundaries); (iv) the final elapsed
total equals `totalDuration`, and (v) the overall progress fraction is
exactly 1 at the state where the last interval's remaining time reaches
0. -/
theorem C7_amended (ivs : List Interval) (keys : Nat → Int)
    (hk : ∀ u, is_quit_key (keys u) = false ∧ is_skip_key (keys u) = false)
    (hd : ∀ iv ∈ ivs, 1 ≤ iv.duration) :
    ((renders (run_session ivs keys).events).map (fun p => p.2.2) =
        List.range' 0 (sum_ticks ivs)) ∧
    List.Chain' (fun p q : Nat × Nat × Nat =>
        overall_progress p.2.2 (sum_durations ivs) ≤
          overall_progress q.2.2 (sum_durations ivs))
      (renders (run_session ivs keys).events) ∧
    List.Chain' (fun p q : Nat × Nat × Nat =>
        p.1 = q.1 →
          current_progress p.2.1 ((ivs.getD p.1 default).duration) ≤
            current_progress q.2.1 ((ivs.getD q.1 default).duration))
      (renders (run_session ivs keys).events) ∧
    ((run_session ivs keys).elapsed : Int) = sum_durations ivs ∧
    (ivs ≠ [] →
      overall_progress (run_session ivs keys).elapsed (sum_durations ivs) = 1) := by
  have hb := session_loop_no_ctl ivs 0 0 0 keys hk
  have hst := sum_ticks_eq_sum_durations ivs hd
  simp only [run_session]
  refine ⟨hb.1, ?_, ?_, ?_, ?_⟩
  · rcases eq_or_ne ivs [] with hne | hne
    · subst hne
      have hempty : renders (session_loop 0 ([] : List Interval) 0 0 keys).events = [] :=
        rfl
      rw [hempty]
      exact List.chain'_nil
    · have hpos : (1 : Int) ≤ sum_durations ivs := sum_durations_pos ivs hne hd
      have hposq : (0 : ℚ) < ((sum_durations ivs : Int) : ℚ) := by exact_mod_cast hpos
      refine List.Chain'.imp ?_ hb.2.2.1
      intro p q hpq
      rw [overall_progress, overall_progress, div_le_div_iff_of_pos_right hposq]
      exact_mod_cast hpq.1
  · rw [List.chain'_iff_get]
    intro i hi
    have hchain := List.chain'_iff_get.mp hb.2.2.1 i hi
    intro hidx
    have hrem := hchain.2 hidx
    have hmemp := List.get_mem (renders (session_loop 0 ivs 0 0 keys).events) i (by omega)
    have hidxp := hb.2.1 _ hmemp
    have hlen : ((renders (session_loop 0 ivs 0 0 keys).events).get ⟨i, by omega⟩).1 <
        ivs.length := by
      have := hidxp.2
      omega
    have hgetd : ivs.getD
        ((renders (session_loop 0 ivs 0 0 keys).events).get ⟨i, by omega⟩).1 default =
          ivs.get ⟨_, hlen⟩ := List.getD_eq_get ivs default hlen
    have hdur : 1 ≤ (ivs.getD
        ((renders (session_loop 0 ivs 0 0 keys).events).get ⟨i, by omega⟩).1
          default).duration := by
      rw [hgetd]
      exact hd _ (List.get_mem ivs _ hlen)
    rw [← hidx]
    rw [current_progress, current_progress]
    refine sub_le_sub_left ?_ 1
    rw [div_le_div_iff_of_pos_right (by exact_mod_cast hdur :
      (0 : ℚ) < ((ivs.getD
        ((renders (session_loop 0 ivs 0 0 keys).events).get ⟨i, by omega⟩).1
          default).duration : Int))]
    exact_mod_cast (by omega :
      ((renders (session_loop 0 ivs 0 0 keys).events).get ⟨i + 1, by omega⟩).2.1 ≤
        ((renders (session_loop 0 ivs 0 0 keys).events).get ⟨i, by omega⟩).2.1)
  · rw [hb.2.2.2.1, Nat.zero_add]
    exact hst
  · intro hne
    have hpos : (1 : Int) ≤ sum_durations ivs := sum_durations_pos ivs hne hd
    have hne0 : ((sum_durations ivs : Int) : ℚ) ≠ 0 := by
      have hq : (0 : ℚ) < ((sum_durations ivs : Int) : ℚ) := by exact_mod_cast hpos
      exact ne_of_gt hq
    rw [overall_progress, hb.2.2.2.1, Nat.zero_add]
    have hcast : ((sum_ticks ivs : Nat) : ℚ) = ((sum_durations ivs : Int) : ℚ) := by
      exact_mod_cast hst
    rw [hcast]
    exact div_self hne0

/-- Claim C7 witness: the amended statement at the session
`[("A", 2), ("B", 1)]` with no keys pressed: elapsed values per tick are
`0, 1, 2`, the final elapsed total is 3 = totalDuration, and the overall
fraction ends at exactly 1. -/
theorem C7_witness :
    ((renders (run_session [⟨"A", 2⟩, ⟨"B", 1⟩] (fun _ => 0)).events).map
        (fun p => p.2.2) = List.range' 0 (sum_ticks [⟨"A", 2⟩, ⟨"B", 1⟩])) ∧
    ((run_session [⟨"A", 2⟩, ⟨"B", 1⟩] (fun _ => 0)).elapsed : Int) =
      sum_durations [⟨"A", 2⟩, ⟨"B", 1⟩] ∧
    overall_progress (run_session [⟨"A", 2⟩, ⟨"B", 1⟩] (fun _ => 0)).elapsed
      (sum_durations [⟨"A", 2⟩, ⟨"B", 1⟩]) = 1 :=
  ⟨(C7_amended [⟨"A", 2⟩, ⟨"B", 1⟩] (fun _ => 0)
      (fun u => ⟨rfl, rfl⟩) (by decide)).1,
    (C7_amended [⟨"A", 2⟩, ⟨"B", 1⟩] (fun _ => 0)
      (fun u => ⟨rfl, rfl⟩) (by decide)).2.2.2.1,
    (C7_amended [⟨"A", 2⟩, ⟨"B", 1⟩] (fun _ => 0)
      (fun u => ⟨rfl, rfl⟩) (by decide)).2.2.2.2 (by decide)⟩

/-! ## Claim C10 -/

/-- Claim C10: `draw_timer` is called before the per-tick decrement, so it
only ever runs with `time_remaining ≥ 1`; hence no rendered frame shows
`00:00` (the displayed `minutes = r / 60` and `seconds = r % 60` are
never both zero) and, when all stored durations are positive, the
rendered overall-progress fraction `elapsed / total` is strictly below 1
at every `draw_timer` call of the session, whatever keys are pressed. -/
theorem C10_theorem (ivs : List Interval) (keys : Nat → Int)
    (hd : ∀ iv ∈ ivs, 1 ≤ iv.duration) :
    ∀ p ∈ renders (run_session ivs keys).events,
      1 ≤ p.2.1 ∧ ¬(p.2.1 / 60 = 0 ∧ p.2.1 % 60 = 0) ∧
      overall_progress p.2.2 (sum_durations ivs) < 1 := by
  intro p hp
  have hb := (session_loop_bound ivs 0 0 0 keys).1 p hp
  have h1 : 1 ≤ p.2.1 := hb.1
  have h2 : p.2.2 + p.2.1 ≤ sum_ticks ivs := by
    have := hb.2
    omega
  refine ⟨h1, by omega, ?_⟩
  have h3 : (sum_ticks ivs : Int) = sum_durations ivs := sum_ticks_eq_sum_durations ivs hd
  have h4 : (1 : Int) ≤ sum_durations ivs := by
    rw [← h3]
    exact_mod_cast (by omega : 1 ≤ sum_ticks ivs)
  have h5 : (p.2.2 : Int) < sum_durations ivs := by
    rw [← h3]
    exact_mod_cast (by omega : p.2.2 < sum_ticks ivs)
  have hpos : (0 : ℚ) < ((sum_durations ivs : Int) : ℚ) := by exact_mod_cast h4
  rw [overall_progress, div_lt_one hpos]
  exact_mod_cast h5

/-- Claim C10 witness: the theorem at the session `[("A",2),("B",1)]` with
no keys pressed, evaluated at its first `draw_timer` call
`(idx 0, remaining 2, elapsed 0)`. -/
theorem C10_witness :
    1 ≤ ((0, 2, 0) : Nat × Nat × Nat).2.1 ∧
    ¬(((0, 2, 0) : Nat × Nat × Nat).2.1 / 60 = 0 ∧
      ((0, 2, 0) : Nat × Nat × Nat).2.1 % 60 = 0) ∧
    overall_progress ((0, 2, 0) : Nat × Nat × Nat).2.2
      (sum_durations [⟨"A", 2⟩, ⟨"B", 1⟩]) < 1 :=
  C10_theorem [⟨"A", 2⟩, ⟨"B", 1⟩] (fun _ => 0) (by decide) (0, 2, 0) (by decide)

end IntervalTimer
